import Mathlib

/-!
Verification development for the `nebulus_core.security` package
(`secrets.py`, `encryption.py`, `audit.py`, `migration.py`).

The Python code is shallowly embedded as executable Lean definitions:

* Python dicts become association lists preserving insertion order
  (`lookupA`, `upsertA`, `removeA`).
* Fernet authenticated encryption is modelled abstractly but faithfully:
  a ciphertext records the key it was produced under, a fresh nonce, and
  the payload; decryption succeeds exactly when the key matches and
  otherwise raises `invalidToken` (Fernet's `InvalidToken`).  Fresh
  nonces model Fernet's random IVs, so encrypting the same payload twice
  yields structurally distinct ciphertexts.
* Python exceptions become an explicit error type `PyFault`; operations
  that can raise return `Except PyFault _` together with the
  (possibly partially mutated) state.
* `json.dumps(sorted(keys))` / `json.loads` on the keyring metadata
  entry are modelled by a concrete character-level encoder/decoder for
  JSON arrays of strings, with a proved round-trip for quote-free keys.
* Python's `re` regular expressions are embedded via a Brzozowski
  derivative matcher over `List Char`; each pattern of
  `SecretsAuditor.PATTERNS`, and the key/line patterns of the migrator,
  are transcribed node by node from the source regexes.
-/

/-- Python exception classes that appear in the security package. -/
inductive PyFault where
  /-- Python `ValueError` (empty key or value in `store_secret`). -/
  | valueError
  /-- Python `cryptography.fernet.InvalidToken` (failed decrypt). -/
  | invalidToken
  /-- Python `keyring.errors.PasswordDeleteError`. -/
  | passwordDeleteError
  /-- Python `keyring.errors.NoKeyringError` ("no backend configured"). -/
  | noKeyringError
  /-- Python `json.JSONDecodeError`. -/
  | jsonDecodeError
  /-- Python `RuntimeError` (missing master key in `_get_cipher`). -/
  | runtimeError
  /-- any other exception, tagged by an arbitrary code. -/
  | otherFault (code : Nat)
  deriving DecidableEq, Repr

/-! ## Association lists: the model of Python `dict[str, str]`

Insertion order is preserved, matching CPython dict semantics. -/

/-- Python `m[k]` lookup (`dict.get`): first binding wins. -/
def lookupA (m : List (String × String)) (k : String) : Option String :=
  match m with
  | [] => none
  | (k', v) :: rest => if k' = k then some v else lookupA rest k

/-- Python `m[k] = v`: replace the existing binding in place, else append. -/
def upsertA (m : List (String × String)) (k v : String) : List (String × String) :=
  match m with
  | [] => [(k, v)]
  | (k', v') :: rest => if k' = k then (k, v) :: rest else (k', v') :: upsertA rest k v

/-- Python `del m[k]`: drop every binding of `k`. -/
def removeA (m : List (String × String)) (k : String) : List (String × String) :=
  match m with
  | [] => []
  | (k', v) :: rest => if k' = k then removeA rest k else (k', v) :: removeA rest k

theorem lookupA_upsertA_self (m : List (String × String)) (k v : String) :
    lookupA (upsertA m k v) k = some v := by
  induction m with
  | nil => simp [upsertA, lookupA]
  | cons p rest ih =>
    obtain ⟨k', v'⟩ := p
    by_cases h : k' = k
    · simp [upsertA, h, lookupA]
    · simp [upsertA, h, lookupA, ih]

theorem lookupA_upsertA_ne (m : List (String × String)) (k v k' : String) (h : k' ≠ k) :
    lookupA (upsertA m k v) k' = lookupA m k' := by
  have hk : k ≠ k' := Ne.symm h
  induction m with
  | nil => simp [upsertA, lookupA, hk]
  | cons p rest ih =>
    obtain ⟨k₀, v₀⟩ := p
    by_cases h₀ : k₀ = k
    · subst h₀
      simp [upsertA, lookupA, hk]
    · simp [upsertA, h₀, lookupA, ih]

theorem lookupA_removeA_self (m : List (String × String)) (k : String) :
    lookupA (removeA m k) k = none := by
  induction m with
  | nil => simp [removeA, lookupA]
  | cons p rest ih =>
    obtain ⟨k', v'⟩ := p
    by_cases h : k' = k
    · simpa [removeA, h] using ih
    · simpa [removeA, lookupA, h] using ih

theorem lookupA_removeA_ne (m : List (String × String)) (k k' : String) (h : k' ≠ k) :
    lookupA (removeA m k) k' = lookupA m k' := by
  have hk : k ≠ k' := Ne.symm h
  induction m with
  | nil => simp [removeA, lookupA]
  | cons p rest ih =>
    obtain ⟨k₀, v₀⟩ := p
    by_cases h₀ : k₀ = k
    · subst h₀
      simp [removeA, lookupA, hk, ih]
    · simp [removeA, lookupA, h₀, ih]

theorem lookupA_eq_none_iff (m : List (String × String)) (k : String) :
    lookupA m k = none ↔ k ∉ m.map Prod.fst := by
  induction m with
  | nil => simp [lookupA]
  | cons p rest ih =>
    obtain ⟨k', v'⟩ := p
    by_cases h : k' = k
    · subst h
      simp [lookupA]
    · simp [lookupA, h, ih, Ne.symm h]

theorem not_mem_keys_removeA (m : List (String × String)) (k : String) :
    k ∉ (removeA m k).map Prod.fst := by
  induction m with
  | nil => simp [removeA]
  | cons p rest ih =>
    obtain ⟨k', v'⟩ := p
    by_cases h : k' = k
    · simpa [removeA, h] using ih
    · simp [removeA, h, ih, Ne.symm h]

/-! ## JSON array of strings

Models `json.dumps(sorted(keys))` / `json.loads(metadata)` as used on the
keyring metadata entry.  `json.dumps` on a list of strings produces
`["a", "b"]` (separator `", "`). -/

/-- Characters of the items of `json.dumps(l)` (without the brackets). -/
def jsonItemsChars : List String → List Char
  | [] => []
  | [k] => '"' :: (k.toList ++ ['"'])
  | k :: k' :: rest => '"' :: (k.toList ++ '"' :: ',' :: ' ' :: jsonItemsChars (k' :: rest))

/-- Python `json.dumps` of a list of strings. -/
def jsonEncodeList (l : List String) : String :=
  String.mk ('[' :: (jsonItemsChars l ++ [']']))

/-- Split a character list at the first `'"'`. -/
def splitAtQuote : List Char → Option (List Char × List Char)
  | [] => none
  | c :: rest =>
    if c = '"' then some ([], rest)
    else (splitAtQuote rest).map (fun p => (c :: p.1, p.2))

/-- Parse the item region of a JSON string array (everything after `[`,
including the closing `]`).  Fuel-indexed for structural termination. -/
def jsonItemsDecode : Nat → List Char → Option (List String)
  | 0, _ => none
  | fuel + 1, cs =>
    match cs with
    | '"' :: rest =>
      match splitAtQuote rest with
      | none => none
      | some (k, rest₂) =>
        match rest₂ with
        | [']'] => some [String.mk k]
        | ',' :: ' ' :: rest₃ =>
          match jsonItemsDecode fuel rest₃ with
          | none => none
          | some l => some (String.mk k :: l)
        | _ => none
    | _ => none

/-- Python `json.loads`, restricted to JSON arrays of strings (the only shape the
source ever stores under the metadata key). -/
def jsonDecodeList (s : String) : Option (List String) :=
  match s.toList with
  | '[' :: rest => if rest = [']'] then some [] else jsonItemsDecode rest.length rest
  | _ => none

theorem splitAtQuote_append (k rest : List Char) (h : '"' ∉ k) :
    splitAtQuote (k ++ '"' :: rest) = some (k, rest) := by
  induction k with
  | nil => simp [splitAtQuote]
  | cons c cs ih =>
    have hc : c ≠ '"' := fun hc => h (hc ▸ List.mem_cons_self c cs)
    have hcs : '"' ∉ cs := fun hm => h (List.mem_cons_of_mem c hm)
    simp [splitAtQuote, hc, ih hcs]

theorem jsonItemsDecode_encode (l : List String) (hne : l ≠ [])
    (hq : ∀ k ∈ l, '"' ∉ k.toList) (fuel : Nat) (hfuel : l.length ≤ fuel) :
    jsonItemsDecode fuel (jsonItemsChars l ++ [']']) = some l := by
  induction l generalizing fuel with
  | nil => exact absurd rfl hne
  | cons k rest ih =>
    obtain ⟨fuel', rfl⟩ : ∃ f, fuel = f + 1 := by
      cases fuel with
      | zero => exact absurd hfuel (by simp)
      | succ f => exact ⟨f, rfl⟩
    have hk : '"' ∉ k.toList := hq k (List.mem_cons_self k rest)
    cases rest with
    | nil =>
      simp only [jsonItemsChars, jsonItemsDecode, List.cons_append, List.append_assoc,
        List.nil_append]
      rw [splitAtQuote_append k.toList [']'] hk]
      rfl
    | cons k' rest' =>
      have hq' : ∀ x ∈ k' :: rest', '"' ∉ x.toList :=
        fun x hx => hq x (List.mem_cons_of_mem k hx)
      have hfuel' : (k' :: rest').length ≤ fuel' := by
        simp only [List.length_cons] at hfuel ⊢
        omega
      simp only [jsonItemsChars, jsonItemsDecode, List.cons_append, List.append_assoc]
      rw [splitAtQuote_append k.toList (',' :: ' ' :: (jsonItemsChars (k' :: rest') ++ [']'])) hk]
      simp only [ih (by simp) hq' fuel' hfuel']
      rfl

theorem jsonItemsChars_head (k : String) (rest : List String) :
    ∃ cs, jsonItemsChars (k :: rest) = '"' :: cs := by
  cases rest <;> exact ⟨_, rfl⟩

theorem length_le_jsonItemsChars (l : List String) :
    l.length ≤ (jsonItemsChars l).length := by
  induction l with
  | nil => simp [jsonItemsChars]
  | cons k rest ih =>
    cases rest with
    | nil => simp [jsonItemsChars]
    | cons k' rest' =>
      simp only [jsonItemsChars, List.length_cons, List.length_append] at ih ⊢
      omega

theorem jsonDecodeList_encode (l : List String) (hq : ∀ k ∈ l, '"' ∉ k.toList) :
    jsonDecodeList (jsonEncodeList l) = some l := by
  cases l with
  | nil => rfl
  | cons k rest =>
    have hchars : (jsonEncodeList (k :: rest)).toList
        = '[' :: (jsonItemsChars (k :: rest) ++ [']']) := rfl
    obtain ⟨cs, hcc⟩ := jsonItemsChars_head k rest
    have hneq : jsonItemsChars (k :: rest) ++ [']'] ≠ [']'] := by
      rw [hcc]; simp
    have hlen : (k :: rest).length ≤ (jsonItemsChars (k :: rest) ++ [']']).length := by
      have h1 := length_le_jsonItemsChars (k :: rest)
      have h2 : (jsonItemsChars (k :: rest)).length
          ≤ (jsonItemsChars (k :: rest) ++ [']']).length := by
        simp
      omega
    unfold jsonDecodeList
    rw [hchars]
    simp only [if_neg hneq]
    exact jsonItemsDecode_encode (k :: rest) (by simp) hq _ hlen

/-! ## `sorted(set(keys))`

`_update_keyring_metadata` stores `json.dumps(sorted(keys))` where `keys`
is a Python `set`.  The model deduplicates and insertion-sorts. -/

/-- Insert into a `≤`-sorted list of strings. -/
def insortStr (k : String) : List String → List String
  | [] => [k]
  | x :: xs => if k ≤ x then k :: x :: xs else x :: insortStr k xs

/-- Insertion sort by the string order (Python `sorted`). -/
def sortStr (l : List String) : List String :=
  l.foldr insortStr []

/-- Remove duplicates, keeping first occurrences (Python `set` contents).
Fuel-indexed for structural recursion (the filter shortens the list, so
`l.length` fuel always suffices). -/
def dedupAux : Nat → List String → List String
  | 0, _ => []
  | _ + 1, [] => []
  | fuel + 1, x :: xs => x :: dedupAux fuel (xs.filter (fun y => y ≠ x))

def dedupStr (l : List String) : List String :=
  dedupAux l.length l

theorem mem_insortStr (x k : String) (l : List String) :
    x ∈ insortStr k l ↔ x = k ∨ x ∈ l := by
  induction l with
  | nil => simp [insortStr]
  | cons a as ih =>
    by_cases h : k ≤ a
    · simp [insortStr, h]
    · simp only [insortStr, if_neg h, List.mem_cons, ih]
      tauto

theorem mem_sortStr (x : String) (l : List String) :
    x ∈ sortStr l ↔ x ∈ l := by
  induction l with
  | nil => simp [sortStr]
  | cons a as ih =>
    simp only [sortStr, List.foldr_cons] at ih ⊢
    rw [mem_insortStr, ih, List.mem_cons]

theorem mem_dedupAux (x : String) (fuel : Nat) :
    ∀ l : List String, l.length ≤ fuel → (x ∈ dedupAux fuel l ↔ x ∈ l) := by
  induction fuel with
  | zero =>
    intro l hl
    have hnil : l = [] := List.eq_nil_of_length_eq_zero (Nat.le_zero.mp hl)
    subst hnil
    simp [dedupAux]
  | succ fuel ih =>
    intro l hl
    cases l with
    | nil => simp [dedupAux]
    | cons a as =>
      have hlen : (as.filter (fun y => y ≠ a)).length ≤ fuel := by
        have h₁ := List.length_filter_le (fun y => decide (y ≠ a)) as
        simp only [List.length_cons] at hl
        omega
      rw [show dedupAux (fuel + 1) (a :: as)
            = a :: dedupAux fuel (as.filter (fun y => y ≠ a)) from rfl]
      simp only [List.mem_cons, ih _ hlen, List.mem_filter, decide_eq_true_eq]
      constructor
      · rintro (rfl | ⟨hmem, _⟩)
        · exact Or.inl rfl
        · exact Or.inr hmem
      · rintro (rfl | hmem)
        · exact Or.inl rfl
        · by_cases hx : x = a
          · exact Or.inl hx
          · exact Or.inr ⟨hmem, hx⟩

theorem mem_dedupStr (x : String) (l : List String) :
    x ∈ dedupStr l ↔ x ∈ l :=
  mem_dedupAux x l.length l (le_refl _)

/-! ## Fernet (abstract model of `cryptography.fernet.Fernet`)

A ciphertext records the key it was encrypted under, a nonce (the random
IV embedded in every real Fernet token), and the payload.  Decryption
authenticates: it succeeds exactly when the key matches, otherwise it
raises `InvalidToken`.  A corrupt blob is modelled as a ciphertext whose
recorded key differs from every key in use. -/

structure FernetCT (α : Type) where
  key : String
  nonce : Nat
  payload : α
  deriving DecidableEq, Repr

/-- Python `Fernet(key).encrypt(payload)` with explicit nonce (random IV). -/
def fernetEncrypt {α : Type} (key : String) (nonce : Nat) (payload : α) : FernetCT α :=
  ⟨key, nonce, payload⟩

/-- Python `Fernet(key).decrypt(ct)`: authenticated decryption. -/
def fernetDecrypt {α : Type} (key : String) (ct : FernetCT α) : Except PyFault α :=
  if ct.key = key then .ok ct.payload else .error .invalidToken

/-! ## `SecretsManager` (`secrets.py`)

State of one `SecretsManager` instance together with the backing stores
it can touch: the OS keyring (an association list of entries under the
fixed service name `"nebulus"`, including the reserved `"__metadata__"`
entry) and the fallback file pair.  The fallback data file's plaintext is
the JSON object of key/value pairs, modelled as the association list
itself (`json.dumps`/`json.loads` of a string dict round-trip). -/

structure SMState where
  /-- Python `self._use_keyring`. -/
  useKeyring : Bool
  /-- keyring entries under `SERVICE_NAME`, including `"__metadata__"`. -/
  keyring : List (String × String)
  /-- whether `_init_fallback` ran for this instance. -/
  fallbackInit : Bool
  /-- contents of `FALLBACK_KEY_FILE` (the loaded `self._cipher` key). -/
  fallbackKey : String
  /-- contents of `FALLBACK_DATA_FILE`, `none` when the file is absent. -/
  fallbackFile : Option (FernetCT (List (String × String)))
  /-- nonce supply for fresh Fernet IVs. -/
  rng : Nat
  deriving DecidableEq, Repr

/-- Outcome of the benign probe read `keyring.get_password(SERVICE_NAME, "__test__")`. -/
inductive ProbeResult where
  | ok (v : Option String)
  | raises (e : PyFault)
  deriving DecidableEq, Repr

/-- Python `SecretsManager._test_keyring` (lines 61-75): only `NoKeyringError`
maps to `False`; any other exception means "keyring exists". -/
def testKeyring (probe : ProbeResult) : Bool :=
  match probe with
  | .ok _ => true
  | .raises .noKeyringError => false
  | .raises _ => true

/-- Backend selection in `__init__` (lines 53-56). -/
def selectUseKeyring (useKeyringArg : Option Bool) (keyringAvailable : Bool)
    (probe : ProbeResult) : Bool :=
  match useKeyringArg with
  | none => keyringAvailable && testKeyring probe
  | some b => b && keyringAvailable

/-- Python `SecretsManager._init_fallback` (lines 77-93): load or create the key
file, then create the empty encrypted data file if absent. -/
def initFallback (existingKey : Option String) (freshKey : String)
    (existingFile : Option (FernetCT (List (String × String)))) :
    String × Option (FernetCT (List (String × String))) :=
  let key := match existingKey with
    | some k => k
    | none => freshKey
  let file := match existingFile with
    | some f => some f
    | none => some (fernetEncrypt key 0 [])
  (key, file)

/-- Python `SecretsManager.__init__` (lines 31-59) over an empty keyring and a
fallback directory with the given pre-existing key/data files. -/
def smInit (useKeyringArg : Option Bool) (keyringAvailable : Bool) (probe : ProbeResult)
    (existingKey : Option String) (freshKey : String)
    (existingFile : Option (FernetCT (List (String × String)))) : SMState :=
  let uk := selectUseKeyring useKeyringArg keyringAvailable probe
  if uk then
    { useKeyring := true, keyring := [], fallbackInit := false,
      fallbackKey := "", fallbackFile := none, rng := 1 }
  else
    let (key, file) := initFallback existingKey freshKey existingFile
    { useKeyring := false, keyring := [], fallbackInit := true,
      fallbackKey := key, fallbackFile := file, rng := 1 }

/-- Python `SecretsManager._read_fallback_data` (lines 95-106). -/
def smReadFallbackData (st : SMState) : Except PyFault (List (String × String)) :=
  match st.fallbackFile with
  | none => .ok []
  | some ct => fernetDecrypt st.fallbackKey ct

/-- Python `SecretsManager._write_fallback_data` (lines 108-117). -/
def smWriteFallbackData (st : SMState) (data : List (String × String)) : SMState :=
  { st with fallbackFile := some (fernetEncrypt st.fallbackKey st.rng data),
            rng := st.rng + 1 }

/-- The metadata read of `_update_keyring_metadata` (lines 129-133):
`keys = set(json.loads(metadata)) if metadata else set()`; an
undecodable entry raises `json.JSONDecodeError`. -/
def readMetadataKeys (metadata : Option String) : Except PyFault (List String) :=
  match metadata with
  | none => .ok []
  | some s =>
    if s = "" then .ok []
    else
      match jsonDecodeList s with
      | some l => .ok l
      | none => .error .jsonDecodeError

/-- The metadata value written back by `_update_keyring_metadata`
(lines 135-140): `json.dumps(sorted(keys))` after `keys.add(key)` or
`keys.discard(key)`. -/
def metadataAfter (l : List String) (key : String) (add : Bool) : String :=
  jsonEncodeList (sortStr (dedupStr
    (if add then (if key ∈ l then l else l ++ [key])
     else l.filter (fun y => y ≠ key))))

/-- Python `SecretsManager._update_keyring_metadata` (lines 119-140).
`KEYRING_AVAILABLE` is folded into `useKeyring` (in keyring mode the
library is necessarily importable). -/
def smUpdateKeyringMetadata (st : SMState) (key : String) (add : Bool) :
    Except PyFault SMState :=
  if !st.useKeyring then .ok st
  else
    match readMetadataKeys (lookupA st.keyring "__metadata__") with
    | .error e => .error e
    | .ok l =>
      .ok { st with keyring := upsertA st.keyring "__metadata__" (metadataAfter l key add) }

/-- Python `SecretsManager.store_secret` (lines 142-162).  The returned state
carries the mutations already made before an exception. -/
def smStoreSecret (st : SMState) (key value : String) : Except PyFault Unit × SMState :=
  if key = "" ∨ value = "" then (.error .valueError, st)
  else if st.useKeyring then
    let st₁ := { st with keyring := upsertA st.keyring key value }
    match smUpdateKeyringMetadata st₁ key true with
    | .ok st₂ => (.ok (), st₂)
    | .error e => (.error e, st₁)
  else
    match smReadFallbackData st with
    | .error e => (.error e, st)
    | .ok data => (.ok (), smWriteFallbackData st (upsertA data key value))

/-- Python `SecretsManager.get_secret` (lines 164-177). -/
def smGetSecret (st : SMState) (key : String) : Except PyFault (Option String) :=
  if st.useKeyring then .ok (lookupA st.keyring key)
  else
    match smReadFallbackData st with
    | .error e => .error e
    | .ok data => .ok (lookupA data key)

/-- Python `SecretsManager.delete_secret` (lines 179-202).  In keyring mode
`keyring.delete_password` raises `PasswordDeleteError` when the entry is
missing, which the source catches and maps to `False`. -/
def smDeleteSecret (st : SMState) (key : String) : Except PyFault Bool × SMState :=
  if st.useKeyring then
    match lookupA st.keyring key with
    | some _ =>
      let st₁ := { st with keyring := removeA st.keyring key }
      match smUpdateKeyringMetadata st₁ key false with
      | .ok st₂ => (.ok true, st₂)
      | .error e => (.error e, st₁)
    | none => (.ok false, st)
  else
    match smReadFallbackData st with
    | .error e => (.error e, st)
    | .ok data =>
      match lookupA data key with
      | some _ => (.ok true, smWriteFallbackData st (removeA data key))
      | none => (.ok false, st)

/-- Python `SecretsManager.list_secrets` (lines 204-219). -/
def smListSecrets (st : SMState) : Except PyFault (List String) :=
  if st.useKeyring then
    match lookupA st.keyring "__metadata__" with
    | none => .ok []
    | some s =>
      if s = "" then .ok []
      else
        match jsonDecodeList s with
        | some l => .ok l
        | none => .error .jsonDecodeError
  else
    match smReadFallbackData st with
    | .error e => .error e
    | .ok data => .ok (data.map Prod.fst)

/-- Well-formed `SecretsManager` states: freshly constructed instances
are well-formed and the public operations preserve this shape.
The keyring metadata entry, when present, is the JSON encoding of a list
of quote-free key names, each of which is retrievable from the keyring;
the fallback data file, when present, decrypts under the instance key. -/
def smWF (st : SMState) : Prop :=
  (match lookupA st.keyring "__metadata__" with
   | none => True
   | some s => s = "" ∨ ∃ l : List String, s = jsonEncodeList l ∧
       (∀ x ∈ l, '"' ∉ x.toList) ∧ (∀ x ∈ l, lookupA st.keyring x ≠ none)) ∧
  (match st.fallbackFile with
   | none => True
   | some ct => ct.key = st.fallbackKey)

/-! ## `EncryptionManager` (`encryption.py`)

Wraps a `SecretsManager`; the master key is a secret stored under
`MASTER_KEY_NAME`.  Values are byte strings (`List Nat`). -/

/-- Python `EncryptionManager.MASTER_KEY_NAME`. -/
def masterKeyName : String := "nebulus_master_encryption_key"

/-- State of an `EncryptionManager`: the wrapped `SecretsManager` plus the
nonce supply standing for the Fernet library's fresh random IVs. -/
structure EncState where
  sm : SMState
  rng : Nat
  deriving DecidableEq, Repr

/-- Python `EncryptionManager._ensure_master_key` (lines 29-34): generate and
store a fresh master key when absent. -/
def encEnsureMasterKey (st : EncState) (freshKey : String) : Except PyFault EncState :=
  match smGetSecret st.sm masterKeyName with
  | .error e => .error e
  | .ok (some _) => .ok st
  | .ok none =>
    let (r, sm') := smStoreSecret st.sm masterKeyName freshKey
    match r with
    | .ok _ => .ok { st with sm := sm' }
    | .error e => .error e

/-- Python `EncryptionManager._get_cipher` (lines 36-48): fetch the master key
from the store on every call; raise `RuntimeError` when missing. -/
def encGetCipherKey (st : EncState) : Except PyFault String :=
  match smGetSecret st.sm masterKeyName with
  | .error e => .error e
  | .ok none => .error .runtimeError
  | .ok (some mk) => .ok mk

/-- Python `EncryptionManager.encrypt_value` (lines 50-62) on bytes. -/
def encryptValue (st : EncState) (plaintext : List Nat) :
    Except PyFault (FernetCT (List Nat) × EncState) :=
  match encGetCipherKey st with
  | .error e => .error e
  | .ok mk => .ok (fernetEncrypt mk st.rng plaintext, { st with rng := st.rng + 1 })

/-- Python `EncryptionManager.decrypt_value` (lines 64-77). -/
def decryptValue (st : EncState) (ciphertext : FernetCT (List Nat)) :
    Except PyFault (List Nat) :=
  match encGetCipherKey st with
  | .error e => .error e
  | .ok mk => fernetDecrypt mk ciphertext

/-! ## Regular expressions: Brzozowski derivative engine

Model of Python `re` as used by `audit.py` and `migration.py`: all the
source patterns are built from literals, character classes, option,
star and bounded repetition, with no anchors except the `^...$` of the
migrator (handled by line-wise matching), so leftmost search and
leftmost-longest match agree with Python's backtracking semantics on
these patterns. -/

inductive RE where
  /-- matches nothing -/
  | emp
  /-- matches the empty string -/
  | eps
  /-- single character from a class -/
  | cls (p : Char → Bool)
  | cat (r s : RE)
  | alt (r s : RE)
  | star (r : RE)

def nullable : RE → Bool
  | .emp => false
  | .eps => true
  | .cls _ => false
  | .cat r s => nullable r && nullable s
  | .alt r s => nullable r || nullable s
  | .star _ => true

/-- Smart concatenation (prunes `emp`/`eps`) to keep derivatives small. -/
def mkCat : RE → RE → RE
  | .emp, _ => .emp
  | .eps, s => s
  | _, .emp => .emp
  | r, .eps => r
  | r, s => .cat r s

/-- Smart alternation. -/
def mkAlt : RE → RE → RE
  | .emp, s => s
  | r, .emp => r
  | r, s => .alt r s

/-- Brzozowski derivative. -/
def rederiv : RE → Char → RE
  | .emp, _ => .emp
  | .eps, _ => .emp
  | .cls p, c => if p c then .eps else .emp
  | .cat r s, c =>
    if nullable r then mkAlt (mkCat (rederiv r c) s) (rederiv s c)
    else mkCat (rederiv r c) s
  | .alt r s, c => mkAlt (rederiv r c) (rederiv s c)
  | .star r, c => mkCat (rederiv r c) (.star r)

/-- Does some prefix of `cs` match `r`?  (`re.match` viewed as a Bool.) -/
def matchesPrefix : RE → List Char → Bool
  | .emp, _ => false
  | r, [] => nullable r
  | r, c :: rest => nullable r || matchesPrefix (rederiv r c) rest

/-- Position of the leftmost match (`re.search(...).start()`), scanning
from offset `pos`. -/
def searchPos (r : RE) : List Char → Nat → Option Nat
  | [], pos => if matchesPrefix r [] then some pos else none
  | c :: rest, pos =>
    if matchesPrefix r (c :: rest) then some pos else searchPos r rest (pos + 1)

/-- Length of the longest prefix of `cs` matching `r` (the greedy match
length Python's engine produces for the source's patterns). -/
def longestMatchLen : RE → List Char → Option Nat
  | .emp, _ => none
  | r, [] => if nullable r then some 0 else none
  | r, c :: rest =>
    match longestMatchLen (rederiv r c) rest with
    | some n => some (n + 1)
    | none => if nullable r then some 0 else none

/-- one literal character -/
def chr (c : Char) : RE := .cls (fun c' => c' = c)

/-- literal string -/
def lit (s : String) : RE := s.toList.foldr (fun c r => mkCat (chr c) r) .eps

/-- regex `r{n}` -/
def repExact (r : RE) : Nat → RE
  | 0 => .eps
  | n + 1 => mkCat r (repExact r n)

/-- regex `r{n,}` -/
def repAtLeast (n : Nat) (r : RE) : RE := mkCat (repExact r n) (.star r)

/-- regex `r?` -/
def opt (r : RE) : RE := mkAlt .eps r

/-! character classes of the source patterns (ASCII, as in the scanned
files) -/

def isDigitCh (c : Char) : Bool := '0' ≤ c && c ≤ '9'
def isLowerCh (c : Char) : Bool := 'a' ≤ c && c ≤ 'z'
def isUpperCh (c : Char) : Bool := 'A' ≤ c && c ≤ 'Z'
/-- Python `[a-zA-Z0-9]` -/
def isAlnumCh (c : Char) : Bool := isLowerCh c || isUpperCh c || isDigitCh c
/-- Python `\w` -/
def isWordCh (c : Char) : Bool := isAlnumCh c || c = '_'
/-- Python `\s` (ASCII: space, tab, newline, CR, FF, VT) -/
def isSpaceCh (c : Char) : Bool :=
  c = ' ' || c = '\t' || c = '\n' || c = '\x0d' || Char.ofNat 11 = c || Char.ofNat 12 = c
/-- Python `['\"]` -/
def isQuoteCh (c : Char) : Bool := c = '\'' || c = '"'
/-- Python `[a-zA-Z0-9_-]` -/
def isKeyValCh (c : Char) : Bool := isAlnumCh c || c = '_' || c = '-'
/-- Python `[0-9A-Za-z_-]` -/
def isGoogleCh (c : Char) : Bool := isKeyValCh c
/-- Python `[0-9A-Z]` -/
def isUpperDigitCh (c : Char) : Bool := isDigitCh c || isUpperCh c
/-- Python `[^\s'\"]` -/
def isPwCh (c : Char) : Bool := !(isSpaceCh c) && !(isQuoteCh c)
/-- Python `[A-Za-z0-9+/]` -/
def isB64Ch (c : Char) : Bool := isAlnumCh c || c = '+' || c = '/'
/-- Python `[:=]` -/
def isColonEqCh (c : Char) : Bool := c = ':' || c = '='

/-! the `SecretsAuditor.PATTERNS` table (audit.py lines 30-42), pattern by
pattern -/

/-- Python `sk-[a-zA-Z0-9]{32,}` -/
def reOpenai : RE := mkCat (lit "sk-") (repAtLeast 32 (.cls isAlnumCh))

/-- Python `AIza[0-9A-Za-z_-]{35}` -/
def reGoogle : RE := mkCat (lit "AIza") (repExact (.cls isGoogleCh) 35)

/-- Python `ghp_[a-zA-Z0-9]{36}` -/
def reGithub : RE := mkCat (lit "ghp_") (repExact (.cls isAlnumCh) 36)

/-- Python `gho_[a-zA-Z0-9]{36}` -/
def reGithubOauth : RE := mkCat (lit "gho_") (repExact (.cls isAlnumCh) 36)

/-- Python `AKIA[0-9A-Z]{16}` -/
def reAws : RE := mkCat (lit "AKIA") (repExact (.cls isUpperDigitCh) 16)

/-- Python `['\"]?NAME['\"]?\s*[:=]\s*['\"]?[a-zA-Z0-9_-]{20,}` for a generic name -/
def reGenericKV (name : String) : RE :=
  mkCat (opt (.cls isQuoteCh)) (mkCat (lit name)
    (mkCat (opt (.cls isQuoteCh)) (mkCat (.star (.cls isSpaceCh))
      (mkCat (.cls isColonEqCh) (mkCat (.star (.cls isSpaceCh))
        (mkCat (opt (.cls isQuoteCh)) (repAtLeast 20 (.cls isKeyValCh))))))))

/-- Python `['\"]?api[_-]?key['\"]?\s*[:=]\s*['\"]?[a-zA-Z0-9_-]{20,}` -/
def reGenericApiKey : RE :=
  mkCat (opt (.cls isQuoteCh)) (mkCat (lit "api")
    (mkCat (opt (.cls (fun c => c = '_' || c = '-'))) (mkCat (lit "key")
      (mkCat (opt (.cls isQuoteCh)) (mkCat (.star (.cls isSpaceCh))
        (mkCat (.cls isColonEqCh) (mkCat (.star (.cls isSpaceCh))
          (mkCat (opt (.cls isQuoteCh)) (repAtLeast 20 (.cls isKeyValCh))))))))))

/-- Python `['\"]?password['\"]?\s*[:=]\s*['\"]?[^\s'\"]{8,}` -/
def rePassword : RE :=
  mkCat (opt (.cls isQuoteCh)) (mkCat (lit "password")
    (mkCat (opt (.cls isQuoteCh)) (mkCat (.star (.cls isSpaceCh))
      (mkCat (.cls isColonEqCh) (mkCat (.star (.cls isSpaceCh))
        (mkCat (opt (.cls isQuoteCh)) (repAtLeast 8 (.cls isPwCh))))))))

/-- Python `Bearer\s+[a-zA-Z0-9_-]{20,}` -/
def reBearer : RE :=
  mkCat (lit "Bearer") (mkCat (repAtLeast 1 (.cls isSpaceCh)) (repAtLeast 20 (.cls isKeyValCh)))

/-- Python `Basic\s+[A-Za-z0-9+/]{20,}={0,2}` -/
def reBasic : RE :=
  mkCat (lit "Basic") (mkCat (repAtLeast 1 (.cls isSpaceCh))
    (mkCat (repAtLeast 20 (.cls isB64Ch)) (mkCat (opt (chr '=')) (opt (chr '=')))))

/-- Python `SecretsAuditor.PATTERNS` in source (dict insertion) order:
(name, regex, severity). -/
def auditPatterns : List (String × RE × String) :=
  [ ("openai_key", reOpenai, "HIGH"),
    ("google_api_key", reGoogle, "HIGH"),
    ("github_token", reGithub, "HIGH"),
    ("github_oauth", reGithubOauth, "HIGH"),
    ("aws_access_key", reAws, "HIGH"),
    ("generic_api_key", reGenericApiKey, "MEDIUM"),
    ("generic_secret", reGenericKV "secret", "MEDIUM"),
    ("generic_token", reGenericKV "token", "MEDIUM"),
    ("password", rePassword, "MEDIUM"),
    ("bearer_token", reBearer, "HIGH"),
    ("basic_auth", reBasic, "HIGH") ]

/-! ## `SecretsAuditor` scanning (`audit.py`) -/

/-- One detected secret (`SecretFinding`), file path omitted (the model
scans one file at a time). -/
structure Finding where
  lineNumber : Nat
  patternType : String
  severity : String
  context : List Char
  deriving DecidableEq, Repr

/-- Python `str.rstrip()` whitespace set. -/
def rstripChars (cs : List Char) : List Char :=
  (cs.reverse.dropWhile isSpaceCh).reverse

/-- Python `SecretsAuditor.mask_secret` (lines 120-133) with the default
`length=8` used by every call site. -/
def maskSecret (text : List Char) (start : Nat) : List Char :=
  if start + 8 < text.length then text.take (start + 8) ++ "***REDACTED***".toList
  else text.take start ++ "***REDACTED***".toList

/-- The per-line loop body of `SecretsAuditor.scan_file` (lines 148-163):
every pattern is tried on the line; a search hit produces a finding whose
context is the rstripped line masked from the match start.  Lines are
modelled without their trailing newline (none of the patterns can match
across or onto the newline). -/
def scanLine (lineNum : Nat) (line : List Char) : List Finding :=
  auditPatterns.filterMap fun entry =>
    match searchPos entry.2.1 line 0 with
    | none => none
    | some s => some ⟨lineNum, entry.1, entry.2.2, maskSecret (rstripChars line) s⟩

/-- Python `SecretsAuditor.scan_file` over the file's lines (1-indexed). -/
def scanLinesFrom (n : Nat) (lines : List (List Char)) : List Finding :=
  match lines with
  | [] => []
  | l :: rest => scanLine n l ++ scanLinesFrom (n + 1) rest

def scanFileLines (lines : List (List Char)) : List Finding :=
  scanLinesFrom 1 lines

/-! ### file selection (`should_skip` / `should_scan_file`, lines 79-118) -/

/-- Python `SecretsAuditor.SKIP_PATTERNS`. -/
def skipPatterns : List String :=
  [ ".git/", "__pycache__/", "node_modules/", ".venv/", "venv/", ".pytest_cache/",
    "*.pyc", "*.pyo", "*.so", "*.dylib", ".DS_Store", "*.egg-info/", "dist/", "build/" ]

/-- Python `SecretsAuditor.SCAN_EXTENSIONS`. -/
def scanExtensions : List String :=
  [ ".py", ".env", ".yml", ".yaml", ".json", ".toml", ".ini", ".conf", ".config",
    ".sh", ".bash", ".md", ".txt" ]

/-- Boolean prefix test on character lists. -/
def isPrefixB : List Char → List Char → Bool
  | [], _ => true
  | _ :: _, [] => false
  | a :: as, b :: bs => a = b && isPrefixB as bs

/-- Boolean suffix test on character lists. -/
def isSuffixB (pat cs : List Char) : Bool :=
  isPrefixB pat.reverse cs.reverse

/-- Boolean infix (substring) test on character lists. -/
def isInfixB (pat : List Char) : List Char → Bool
  | [] => isPrefixB pat []
  | c :: rest => isPrefixB pat (c :: rest) || isInfixB pat rest

/-- Python `str.split(sep)` for a one-character separator. -/
def splitOnCharB (sep : Char) : List Char → List (List Char)
  | [] => [[]]
  | c :: rest =>
    let r := splitOnCharB sep rest
    if c = sep then [] :: r
    else
      match r with
      | [] => [[c]]
      | h :: t => (c :: h) :: t

/-- One iteration of the `should_skip` loop (lines 89-97): a pattern
ending in `/` names a path component; a `*.`-pattern is a filename
suffix; anything else is a plain substring test. -/
def skipPatternHit (path : List Char) (parts : List (List Char)) (pat : List Char) : Bool :=
  if isSuffixB ['/'] pat then parts.contains pat.dropLast
  else if isPrefixB ['*', '.'] pat then isSuffixB (pat.drop 1) path
  else isInfixB pat path

/-- Python `SecretsAuditor.should_skip` (lines 79-98). -/
def shouldSkip (path : String) : Bool :=
  skipPatterns.any
    (fun pat => skipPatternHit path.toList (splitOnCharB '/' path.toList) pat.toList)

/-- last index of `'.'` in a name (`str.rfind('.')`). -/
def rfindDot (cs : List Char) : Option Nat :=
  ((List.range cs.length).filter (fun i => cs.get? i = some '.')).getLast?

/-- Python `pathlib.PurePath.suffix`: the last dot-suffix of the final component,
where a leading dot (hidden-file marker) does not start a suffix. -/
def pathSuffix (name : String) : String :=
  let cs := name.toList
  match rfindDot cs with
  | none => ""
  | some i => if 0 < i ∧ i < cs.length - 1 then String.mk (cs.drop i) else ""

/-- Python `pathlib.PurePath.name`: final path component. -/
def pathName (path : String) : String :=
  String.mk ((splitOnCharB '/' path.toList).getLastD [])

/-- Python `SecretsAuditor.should_scan_file` (lines 100-118); `isFile` stands for
the `path.is_file()` filesystem probe. -/
def shouldScanFile (isFile : Bool) (path : String) : Bool :=
  if !isFile then false
  else if shouldSkip path then false
  else if scanExtensions.any (fun e => e.toList = (pathSuffix (pathName path)).toList) then true
  else if (pathSuffix (pathName path)).toList = []
      && !(isPrefixB ['.'] (pathName path).toList) then true
  else false

/-! ## `SecretsMigrator` (`migration.py`) -/

/-- ASCII `str.lower`. -/
def pyLowerChar (c : Char) : Char :=
  if 'A' ≤ c && c ≤ 'Z' then Char.ofNat (c.toNat + 32) else c

def pyLower (s : String) : String :=
  String.mk (s.toList.map pyLowerChar)

/-- Python `str.strip()`. -/
def stripChars (cs : List Char) : List Char :=
  rstripChars (cs.dropWhile isSpaceCh)

def pyStrip (s : String) : String :=
  String.mk (stripChars s.toList)

/-- Python `[A-Z_]` (first char of an `ENV_PATTERN` key). -/
def isEnvKeyStartCh (c : Char) : Bool := isUpperCh c || c = '_'
/-- Python `[A-Z0-9_]` -/
def isEnvKeyCh (c : Char) : Bool := isUpperCh c || isDigitCh c || c = '_'
/-- Python `[ \t]` -/
def isSpTab (c : Char) : Bool := c = ' ' || c = '\t'
/-- Python `[^"'\n]` (value characters) -/
def isValCh (c : Char) : Bool := !(isQuoteCh c) && c ≠ '\n'

/-- The common tail `[ \t]*["\']?([^"\'\n]+)["\']?[ \t]*$` of both
migration patterns, applied after the separator.  Greedy value capture
with the single optional closing quote, exactly the leftmost-longest
behaviour of Python's backtracking on these character classes. -/
def parseValueTail (afterSep : List Char) : Option String :=
  let afterSp := afterSep.dropWhile isSpTab
  let body :=
    match afterSp with
    | c :: r => if isQuoteCh c then r else afterSp
    | [] => []
  let valRun := body.takeWhile isValCh
  let afterVal := body.dropWhile isValCh
  if valRun = [] then none
  else
    let afterQ :=
      match afterVal with
      | c :: r => if isQuoteCh c then r else afterVal
      | [] => []
    if afterQ.all isSpTab then some (String.mk valRun) else none

/-- Python `SecretsMigrator.ENV_PATTERN`
(`^([A-Z_][A-Z0-9_]*)[ \t]*=[ \t]*["\']?([^"\'\n]+)["\']?[ \t]*$`,
MULTILINE) applied to one line. -/
def envParseLine (cs : List Char) : Option (String × String) :=
  match cs with
  | [] => none
  | c :: rest =>
    if isEnvKeyStartCh c then
      let keyRest := rest.takeWhile isEnvKeyCh
      let after := (rest.dropWhile isEnvKeyCh).dropWhile isSpTab
      match after with
      | '=' :: afterEq => (parseValueTail afterEq).map (fun v => (String.mk (c :: keyRest), v))
      | _ => none
    else none

/-- Python `SecretsMigrator.YAML_PATTERN`
(`^(\w+):[ \t]*["\']?([^"\'\n]+)["\']?[ \t]*$`, MULTILINE) on one line. -/
def yamlParseLine (cs : List Char) : Option (String × String) :=
  match cs with
  | [] => none
  | c :: rest =>
    if isWordCh c then
      let keyRest := rest.takeWhile isWordCh
      let after := rest.dropWhile isWordCh
      match after with
      | ':' :: afterColon =>
        (parseValueTail afterColon).map (fun v => (String.mk (c :: keyRest), v))
      | _ => none
    else none

/-- The cores of `SECRET_KEY_PATTERNS` (each source pattern is
`.*core.*` compiled with `re.IGNORECASE` and applied with `.match`,
which on newline-free keys is a case-insensitive substring search). -/
def reSecretCores : List RE :=
  [ mkCat (lit "api") (mkCat (opt (.cls (fun c => c = '_' || c = '-'))) (lit "key")),
    lit "secret",
    lit "token",
    lit "password",
    lit "auth",
    lit "credential",
    mkCat (lit "access") (mkCat (opt (.cls (fun c => c = '_' || c = '-'))) (lit "key")),
    mkCat (lit "private") (mkCat (opt (.cls (fun c => c = '_' || c = '-'))) (lit "key")) ]

/-- Python `SecretsMigrator.is_secret_key` (lines 60-69). -/
def isSecretKey (k : String) : Bool :=
  reSecretCores.any (fun r => (searchPos r (pyLower k).toList 0).isSome)

/-- The shared extraction loop of `extract_from_env_file` /
`extract_from_yaml_file` (lines 86-92 and 109-115): keep secret-shaped
keys with non-empty stripped values, keyed by the lowercased name. -/
def extractLoop (parse : List Char → Option (String × String)) :
    List (List Char) → List (String × String) → List (String × String)
  | [], acc => acc
  | l :: rest, acc =>
    match parse l with
    | none => extractLoop parse rest acc
    | some (k, v) =>
      let v' := pyStrip v
      if isSecretKey k && v' ≠ "" then extractLoop parse rest (upsertA acc (pyLower k) v')
      else extractLoop parse rest acc

/-- Python `extract_from_env_file` over the file's lines. -/
def extractFromEnvLines (lines : List (List Char)) : List (String × String) :=
  extractLoop envParseLine lines []

/-- Python `extract_from_yaml_file` over the file's lines. -/
def extractFromYamlLines (lines : List (List Char)) : List (String × String) :=
  extractLoop yamlParseLine lines []

/-- error message of `migrate_from_file`'s per-key handler (line 147). -/
def migrateErrMsg (key msg : String) : String :=
  "Failed to store " ++ key ++ ": " ++ msg

/-- The store loop of `SecretsMigrator.migrate_from_file` (lines 140-149)
over an arbitrary store backend `store` with state `σ`: per-key failures
are collected, the loop never aborts. -/
def migrateStoreLoop {σ : Type} (store : σ → String → String → Except String Unit × σ)
    (st : σ) : List (String × String) → (Nat × List String) × σ
  | [] => ((0, []), st)
  | (k, v) :: rest =>
    let out := store st k v
    let next := migrateStoreLoop store out.2 rest
    match out.1 with
    | .ok _ => ((next.1.1 + 1, next.1.2), next.2)
    | .error e => ((next.1.1, migrateErrMsg k e :: next.1.2), next.2)

/-- printable message of a `PyFault` (`str(e)`). -/
def pyFaultMsg : PyFault → String
  | .valueError => "Key and value must be non-empty strings"
  | .invalidToken => "InvalidToken"
  | .passwordDeleteError => "PasswordDeleteError"
  | .noKeyringError => "NoKeyringError"
  | .jsonDecodeError => "JSONDecodeError"
  | .runtimeError => "Master encryption key not found"
  | .otherFault n => "error " ++ toString n

/-- Python `self._secrets.store_secret` as a migration store backend. -/
def smStoreBackend (st : SMState) (k v : String) : Except String Unit × SMState :=
  let out := smStoreSecret st k v
  (match out.1 with
   | .ok _ => .ok ()
   | .error e => .error (pyFaultMsg e), out.2)

/-- Python `migrate_from_file` on a `.env`-named file backed by a
`SecretsManager`. -/
def migrateEnvFile (st : SMState) (lines : List (List Char)) : (Nat × List String) × SMState :=
  migrateStoreLoop smStoreBackend st (extractFromEnvLines lines)

/-- Python `MigrationResult` (migration.py lines 10-23), file paths as strings. -/
structure MigRes where
  secretsFound : Nat
  secretsMigrated : Nat
  errors : List String
  sourceFiles : List String
  deriving DecidableEq, Repr

/-- The aggregation loop of `migrate_from_directory` (lines 163-205) over
the deduplicated, non-skipped files and their per-file outcomes
(`.ok (migrated, errors)` for a completed `migrate_from_file` call,
`.error e` when processing the file raised). -/
def migrateDirLoop : List (String × Except String (Nat × List String)) → MigRes
  | [] => ⟨0, 0, [], []⟩
  | (f, r) :: rest =>
    let res := migrateDirLoop rest
    match r with
    | .ok (m, errs) =>
      if m > 0 then
        ⟨m + res.secretsFound, m + res.secretsMigrated, errs ++ res.errors, f :: res.sourceFiles⟩
      else
        ⟨res.secretsFound, res.secretsMigrated, errs ++ res.errors, res.sourceFiles⟩
    | .error e =>
      ⟨res.secretsFound, res.secretsMigrated,
        ("Error processing " ++ f ++ ": " ++ e) :: res.errors, res.sourceFiles⟩

/-! ## Concrete states used by witnesses and counterexamples -/

/-- A freshly constructed keyring-mode instance (keyring importable,
probe succeeds, empty OS keyring). -/
def smKeyringFresh : SMState := smInit none true (.ok none) none "" none

/-- A freshly constructed fallback-mode instance over an empty directory
(probe raises `NoKeyringError`). -/
def smFallbackFresh : SMState :=
  smInit none true (.raises .noKeyringError) none "fkey" none

/-! ## C3: backend selection -/

/-- C3: with keyring importable and backend selection not forced, the
constructor selects fallback mode exactly when the probe read raises
`NoKeyringError`; any other probe outcome (success or any other
exception) selects the keystore backend, and then `_init_fallback` is
never run for the instance. -/
theorem C3_backend_selection (probe : ProbeResult) (existingKey : Option String)
    (freshKey : String) (existingFile : Option (FernetCT (List (String × String)))) :
    ((smInit none true probe existingKey freshKey existingFile).useKeyring = false
      ↔ probe = .raises .noKeyringError) ∧
    ((smInit none true probe existingKey freshKey existingFile).useKeyring = true →
      (smInit none true probe existingKey freshKey existingFile).fallbackInit = false) := by
  cases probe with
  | ok v => simp [smInit, selectUseKeyring, testKeyring]
  | raises e => cases e <;> simp [smInit, selectUseKeyring, testKeyring, initFallback]

/-- Witness for C3 at both a succeeding probe and the `NoKeyringError`
probe. -/
theorem C3_backend_selection_witness :
    (((smInit none true (.ok none) none "" none).useKeyring = false
        ↔ (ProbeResult.ok none) = .raises .noKeyringError) ∧
      ((smInit none true (.ok none) none "" none).useKeyring = true →
        (smInit none true (.ok none) none "" none).fallbackInit = false)) ∧
    (((smInit none true (.raises .noKeyringError) none "" none).useKeyring = false
        ↔ (ProbeResult.raises .noKeyringError) = .raises .noKeyringError) ∧
      ((smInit none true (.raises .noKeyringError) none "" none).useKeyring = true →
        (smInit none true (.raises .noKeyringError) none "" none).fallbackInit = false)) :=
  ⟨C3_backend_selection (.ok none) none "" none,
   C3_backend_selection (.raises .noKeyringError) none "" none⟩

/-! ## C2: corrupt fallback data file -/

/-- C2: in fallback mode, when the data file holds a ciphertext produced
under a different key (corrupt or foreign), every store operation that
reads it surfaces `InvalidToken` to the caller and leaves the state
untouched — nothing is caught, returned as `None`, discarded or
rewritten. -/
theorem C2_corrupt_store_error (st : SMState) (ct : FernetCT (List (String × String)))
    (hmode : st.useKeyring = false) (hfile : st.fallbackFile = some ct)
    (hbad : ct.key ≠ st.fallbackKey) (k v : String) (hk : k ≠ "") (hv : v ≠ "") :
    smGetSecret st k = .error .invalidToken ∧
    smStoreSecret st k v = (.error .invalidToken, st) ∧
    smDeleteSecret st k = (.error .invalidToken, st) ∧
    smListSecrets st = .error .invalidToken := by
  have hread : smReadFallbackData st = .error .invalidToken := by
    simp [smReadFallbackData, hfile, fernetDecrypt, hbad]
  refine ⟨?_, ?_, ?_, ?_⟩
  · simp [smGetSecret, hmode, hread]
  · simp [smStoreSecret, hmode, hread, hk, hv]
  · simp [smDeleteSecret, hmode, hread]
  · simp [smListSecrets, hmode, hread]

/-- A fallback instance whose data file was swapped for a ciphertext
under a foreign key. -/
def smCorrupt : SMState :=
  { smFallbackFresh with fallbackFile := some ⟨"otherkey", 5, [("x", "y")]⟩ }

/-- Witness for C2 on the concrete corrupted store. -/
theorem C2_corrupt_store_error_witness :
    smGetSecret smCorrupt "x" = .error .invalidToken ∧
    smStoreSecret smCorrupt "x" "y" = (.error .invalidToken, smCorrupt) ∧
    smDeleteSecret smCorrupt "x" = (.error .invalidToken, smCorrupt) ∧
    smListSecrets smCorrupt = .error .invalidToken :=
  C2_corrupt_store_error smCorrupt ⟨"otherkey", 5, [("x", "y")]⟩ rfl rfl
    (by decide) "x" "y" (by decide) (by decide)

/-! ## C5: ciphertext non-determinism and round trip -/

/-- C5: with the master key present in the wrapped store, two successive
`encrypt_value` calls on the same plaintext produce distinct ciphertexts
(fresh Fernet IVs), and `decrypt_value` maps either back to the original
plaintext bytes. -/
theorem C5_encrypt_twice_distinct (st : EncState) (mk : String) (p : List Nat)
    (hmk : smGetSecret st.sm masterKeyName = .ok (some mk)) :
    ∃ c₁ st₁ c₂ st₂,
      encryptValue st p = .ok (c₁, st₁) ∧
      encryptValue st₁ p = .ok (c₂, st₂) ∧
      c₁ ≠ c₂ ∧
      decryptValue st₂ c₁ = .ok p ∧
      decryptValue st₂ c₂ = .ok p := by
  have hkey : encGetCipherKey st = .ok mk := by
    simp [encGetCipherKey, hmk]
  refine ⟨fernetEncrypt mk st.rng p, { st with rng := st.rng + 1 },
          fernetEncrypt mk (st.rng + 1) p, { st with rng := st.rng + 2 }, ?_, ?_, ?_, ?_, ?_⟩
  · simp [encryptValue, hkey]
  · have hkey₁ : encGetCipherKey { st with rng := st.rng + 1 } = .ok mk := by
      simp [encGetCipherKey, hmk]
    simp [encryptValue, hkey₁, fernetEncrypt]
  · intro h
    have := congrArg FernetCT.nonce h
    simp [fernetEncrypt] at this
  · have hkey₂ : encGetCipherKey { st with rng := st.rng + 2 } = .ok mk := by
      simp [encGetCipherKey, hmk]
    simp [decryptValue, hkey₂, fernetDecrypt, fernetEncrypt]
  · have hkey₂ : encGetCipherKey { st with rng := st.rng + 2 } = .ok mk := by
      simp [encGetCipherKey, hmk]
    simp [decryptValue, hkey₂, fernetDecrypt, fernetEncrypt]

/-- An `EncryptionManager` over a fresh fallback store with the master
key already ensured. -/
def encReady : EncState :=
  ⟨(smStoreSecret smFallbackFresh masterKeyName "MK").2, 0⟩

/-- Witness for C5 on the concrete manager and plaintext `[1, 2, 3]`. -/
theorem C5_encrypt_twice_distinct_witness :
    ∃ c₁ st₁ c₂ st₂,
      encryptValue encReady [1, 2, 3] = .ok (c₁, st₁) ∧
      encryptValue st₁ [1, 2, 3] = .ok (c₂, st₂) ∧
      c₁ ≠ c₂ ∧
      decryptValue st₂ c₁ = .ok [1, 2, 3] ∧
      decryptValue st₂ c₂ = .ok [1, 2, 3] :=
  C5_encrypt_twice_distinct encReady "MK" [1, 2, 3] rfl

/-! ## C6: auditor severity mapping on concrete files -/

/-- the line `OPENAI_API_KEY = "sk-" + 40 alphanumerics`. -/
def c6Line : List Char :=
  "OPENAI_API_KEY = \"sk-aaaaaaaaaaaaaaaaaaaaaaaaaaaaaaaaaaaaaaaa\"".toList

/-- the line `password=short` (7-or-fewer-character value). -/
def c6PwLine : List Char := "password=short".toList

/-- C6: scanning a file whose single line is
`OPENAI_API_KEY = "sk-" + 40 alphanumerics` yields exactly one finding,
of the vendor-specific `openai_key` pattern with severity HIGH (the
generic patterns are case-sensitive and do not fire on the uppercase
name); scanning a file whose only line is `password=short` yields no
findings (the value is shorter than the 8-character minimum). -/
theorem C6_severity_mapping :
    (scanFileLines [c6Line]).map (fun f => (f.patternType, f.severity))
      = [("openai_key", "HIGH")] ∧
    (scanFileLines [c6Line]).length = 1 ∧
    scanFileLines [c6PwLine] = [] :=
  ⟨rfl, rfl, rfl⟩

/-! ## C7: file selection for a bare `.env` -/

/-- C7 counterexample: `should_scan_file` returns `False` on a file named
exactly `.env`, while the claim says it returns `True`; pathlib assigns
`.env` an empty suffix, so the allow-list entry is never consulted for
it, and the extensionless rule rejects the leading dot. -/
theorem C7_counterexample :
    shouldScanFile true ".env" = false ∧ pathSuffix ".env" = "" :=
  ⟨rfl, rfl⟩

/-- C7 amended: the selection predicate rejects a bare `.env` file:
`pathlib` gives the name `.env` an empty suffix (a leading dot starts no
suffix), so the `.env` entry of the scan-extension allow-list does not
apply to it — that entry reaches only suffixed names like `config.env` —
and the extensionless rule excludes every dot-name. -/
theorem C7_env_selection :
    shouldScanFile true ".env" = false ∧
    pathSuffix ".env" = "" ∧
    scanExtensions.any (fun e => e.toList = (pathSuffix (pathName ".env")).toList) = false ∧
    isPrefixB ['.'] (pathName ".env").toList = true ∧
    shouldScanFile true "config.env" = true ∧
    pathSuffix "config.env" = ".env" :=
  ⟨rfl, rfl, by decide, by decide, rfl, rfl⟩

/-! ## C9: migration resilience -/

theorem migrateStoreLoop_accounting {σ : Type}
    (store : σ → String → String → Except String Unit × σ)
    (secrets : List (String × String)) :
    ∀ st : σ, (migrateStoreLoop store st secrets).1.1
        + (migrateStoreLoop store st secrets).1.2.length = secrets.length := by
  induction secrets with
  | nil =>
    intro st
    simp [migrateStoreLoop]
  | cons kv rest ih =>
    intro st
    obtain ⟨k, v⟩ := kv
    simp only [migrateStoreLoop]
    split
    · have := ih (store st k v).2
      simp only [List.length_cons]
      omega
    · have := ih (store st k v).2
      simp only [List.length_cons]
      omega

theorem migrateDirLoop_errors (outcomes : List (String × Except String (Nat × List String))) :
    (migrateDirLoop outcomes).errors
      = outcomes.flatMap (fun fr =>
          match fr.2 with
          | .ok me => me.2
          | .error e => ["Error processing " ++ fr.1 ++ ": " ++ e]) := by
  induction outcomes with
  | nil => simp [migrateDirLoop]
  | cons fr rest ih =>
    obtain ⟨f, r⟩ := fr
    cases r with
    | ok me =>
      obtain ⟨m, errs⟩ := me
      by_cases hm : m > 0
      · simp [migrateDirLoop, hm, ih]
      · simp [migrateDirLoop, hm, ih]
    | error e => simp [migrateDirLoop, ih]

theorem migrateDirLoop_migrated (outcomes : List (String × Except String (Nat × List String))) :
    (migrateDirLoop outcomes).secretsMigrated
      = (outcomes.map (fun fr =>
          match fr.2 with
          | .ok me => me.1
          | .error _ => 0)).sum := by
  induction outcomes with
  | nil => simp [migrateDirLoop]
  | cons fr rest ih =>
    obtain ⟨f, r⟩ := fr
    cases r with
    | ok me =>
      obtain ⟨m, errs⟩ := me
      by_cases hm : m > 0
      · simp [migrateDirLoop, hm, ih]
      · have hm0 : m = 0 := by omega
        simp [migrateDirLoop, hm, ih, hm0]
    | error e => simp [migrateDirLoop, ih]

/-- C9: migration never aborts on a failing key or file.  In the per-key
store loop of `migrate_from_file`, every extracted key contributes
exactly one of a migrated count or an error entry, whatever the store
backend does (`migrated + |errors| = |secrets|`), in particular for a
`SecretsManager`-backed migration of a `.env` file; and the directory
loop of `migrate_from_directory` always aggregates into a single
`MigrationResult` that carries every per-file error (including the
"Error processing" entry of files whose processing raised) and the sum
of the per-file migrated counts. -/
theorem C9_migration_resilience {σ : Type}
    (store : σ → String → String → Except String Unit × σ) (st : σ)
    (secrets : List (String × String)) (smSt : SMState) (lines : List (List Char))
    (outcomes : List (String × Except String (Nat × List String))) :
    (migrateStoreLoop store st secrets).1.1
        + (migrateStoreLoop store st secrets).1.2.length = secrets.length ∧
    (migrateEnvFile smSt lines).1.1
        + (migrateEnvFile smSt lines).1.2.length = (extractFromEnvLines lines).length ∧
    (migrateDirLoop outcomes).errors
      = outcomes.flatMap (fun fr =>
          match fr.2 with
          | .ok me => me.2
          | .error e => ["Error processing " ++ fr.1 ++ ": " ++ e]) ∧
    (migrateDirLoop outcomes).secretsMigrated
      = (outcomes.map (fun fr =>
          match fr.2 with
          | .ok me => me.1
          | .error _ => 0)).sum :=
  ⟨migrateStoreLoop_accounting store secrets st,
   migrateStoreLoop_accounting smStoreBackend (extractFromEnvLines lines) smSt,
   migrateDirLoop_errors outcomes,
   migrateDirLoop_migrated outcomes⟩

/-! ## C10: the migrator lowercases extracted keys -/

theorem mem_upsertA (p : String × String) (acc : List (String × String)) (k v : String) :
    p ∈ upsertA acc k v → p = (k, v) ∨ p ∈ acc := by
  induction acc with
  | nil => simp [upsertA]
  | cons q rest ih =>
    obtain ⟨k₀, v₀⟩ := q
    intro hmem
    by_cases h : k₀ = k
    · rw [show upsertA ((k₀, v₀) :: rest) k v = (k, v) :: rest by simp [upsertA, h]] at hmem
      rcases List.mem_cons.mp hmem with rfl | hmem'
      · exact Or.inl rfl
      · exact Or.inr (List.mem_cons_of_mem _ hmem')
    · rw [show upsertA ((k₀, v₀) :: rest) k v = (k₀, v₀) :: upsertA rest k v by
          simp [upsertA, h]] at hmem
      rcases List.mem_cons.mp hmem with rfl | hmem'
      · exact Or.inr (List.mem_cons_self _ _)
      · rcases ih hmem' with h₁ | h₁
        · exact Or.inl h₁
        · exact Or.inr (List.mem_cons_of_mem _ h₁)

theorem extractLoop_mem (parse : List Char → Option (String × String))
    (lines : List (List Char)) :
    ∀ acc p, p ∈ extractLoop parse lines acc →
      p ∈ acc ∨ ∃ l ∈ lines, ∃ k v, parse l = some (k, v)
        ∧ p.1 = pyLower k ∧ p.2 = pyStrip v := by
  induction lines with
  | nil =>
    intro acc p hp
    simp only [extractLoop] at hp
    exact Or.inl hp
  | cons l rest ih =>
    intro acc p hp
    simp only [extractLoop] at hp
    cases hparse : parse l with
    | none =>
      rw [hparse] at hp
      rcases ih acc p hp with h₁ | ⟨l', hl', hrest⟩
      · exact Or.inl h₁
      · exact Or.inr ⟨l', List.mem_cons_of_mem _ hl', hrest⟩
    | some kv =>
      obtain ⟨k, v⟩ := kv
      rw [hparse] at hp
      replace hp : p ∈ if (isSecretKey k && decide (pyStrip v ≠ "")) = true
          then extractLoop parse rest (upsertA acc (pyLower k) (pyStrip v))
          else extractLoop parse rest acc := hp
      by_cases hc : (isSecretKey k && decide (pyStrip v ≠ "")) = true
      · rw [if_pos hc] at hp
        rcases ih _ p hp with h₁ | ⟨l', hl', hrest⟩
        · rcases mem_upsertA p acc (pyLower k) (pyStrip v) h₁ with rfl | h₂
          · exact Or.inr ⟨l, List.mem_cons_self _ _, k, v, hparse, rfl, rfl⟩
          · exact Or.inl h₂
        · exact Or.inr ⟨l', List.mem_cons_of_mem _ hl', hrest⟩
      · rw [if_neg hc] at hp
        rcases ih acc p hp with h₁ | ⟨l', hl', hrest⟩
        · exact Or.inl h₁
        · exact Or.inr ⟨l', List.mem_cons_of_mem _ hl', hrest⟩

/-- C10: every entry retained by the migrator's env extraction is keyed
by the lowercase of the key matched in the file, and concretely,
migrating a `.env` file containing `API_KEY=abc123` into a fresh
fallback store makes the secret retrievable under `api_key` and not
under the original `API_KEY`. -/
theorem C10_migrator_lowercases :
    (∀ lines p, p ∈ extractFromEnvLines lines →
       ∃ l ∈ lines, ∃ k v, envParseLine l = some (k, v)
         ∧ p.1 = pyLower k ∧ p.2 = pyStrip v) ∧
    extractFromEnvLines ["API_KEY=abc123".toList] = [("api_key", "abc123")] ∧
    envParseLine "API_KEY=abc123".toList = some ("API_KEY", "abc123") ∧
    pyLower "API_KEY" = "api_key" ∧
    smGetSecret (migrateEnvFile smFallbackFresh ["API_KEY=abc123".toList]).2 "api_key"
      = .ok (some "abc123") ∧
    smGetSecret (migrateEnvFile smFallbackFresh ["API_KEY=abc123".toList]).2 "API_KEY"
      = .ok none := by
  refine ⟨?_, rfl, rfl, rfl, rfl, rfl⟩
  intro lines p hp
  have h := extractLoop_mem envParseLine lines [] p hp
  rcases h with h₁ | h₁
  · exact absurd h₁ (List.not_mem_nil p)
  · exact h₁

/-- Witness for C10's universal part at the concrete `.env` content. -/
theorem C10_migrator_lowercases_witness :
    ∃ l ∈ ["API_KEY=abc123".toList], ∃ k v, envParseLine l = some (k, v)
      ∧ (("api_key", "abc123") : String × String).1 = pyLower k
      ∧ (("api_key", "abc123") : String × String).2 = pyStrip v :=
  C10_migrator_lowercases.1 ["API_KEY=abc123".toList] ("api_key", "abc123") (by decide)

/-! ## C1/C4 shared machinery: the keyring metadata update -/

theorem jsonEncodeList_ne_empty (l : List String) : jsonEncodeList l ≠ "" := by
  intro h
  have := congrArg String.data h
  simp [jsonEncodeList] at this

/-- The keyring metadata entry represents the key list `l`. -/
def metadataRep (st : SMState) (l : List String) : Prop :=
  (lookupA st.keyring "__metadata__" = none ∧ l = []) ∨
  (lookupA st.keyring "__metadata__" = some "" ∧ l = []) ∨
  (lookupA st.keyring "__metadata__" = some (jsonEncodeList l) ∧ ∀ x ∈ l, '"' ∉ x.toList)

/-- Evaluation of `_update_keyring_metadata` on a well-formed metadata
entry: it rewrites the entry with the sorted deduplicated key set, with
`key` added or discarded. -/
theorem smUpdateKeyringMetadata_spec (st : SMState) (key : String) (add : Bool)
    (l : List String) (hkr : st.useKeyring = true) (hrep : metadataRep st l) :
    smUpdateKeyringMetadata st key add
      = .ok { st with keyring := upsertA st.keyring "__metadata__" (metadataAfter l key add) } := by
  have hkeys : readMetadataKeys (lookupA st.keyring "__metadata__") = .ok l := by
    rcases hrep with ⟨h, rfl⟩ | ⟨h, rfl⟩ | ⟨h, hq⟩
    · rw [h]
      rfl
    · rw [h]
      rfl
    · rw [h]
      show (if jsonEncodeList l = "" then (Except.ok [] : Except PyFault (List String))
          else match jsonDecodeList (jsonEncodeList l) with
            | some l' => Except.ok l'
            | none => Except.error PyFault.jsonDecodeError) = Except.ok l
      rw [if_neg (jsonEncodeList_ne_empty l), jsonDecodeList_encode l hq]
  unfold smUpdateKeyringMetadata
  rw [hkr, hkeys]
  rfl

/-! ## C1: store/get round trip -/

/-- C1 counterexample: on a freshly constructed keyring-mode instance,
`store_secret("__metadata__", "[]")` succeeds (both arguments are
non-empty), but the metadata bookkeeping then overwrites the entry, so
`get_secret("__metadata__")` returns the rewritten index
`"[\"__metadata__\"]"` instead of the stored value `"[]"`. -/
theorem C1_counterexample :
    (smStoreSecret smKeyringFresh "__metadata__" "[]").1 = .ok () ∧
    smGetSecret (smStoreSecret smKeyringFresh "__metadata__" "[]").2 "__metadata__"
      = .ok (some "[\"__metadata__\"]") ∧
    ("[\"__metadata__\"]" : String) ≠ "[]" ∧
    ("__metadata__" : String) ≠ "" ∧ ("[]" : String) ≠ "" :=
  ⟨rfl, rfl, by decide, by decide, by decide⟩

/-- C1 amended: for every non-empty key other than the reserved
`"__metadata__"` index entry and every non-empty value, on a well-formed
store (as every freshly constructed instance is), `store_secret`
succeeds and `get_secret` of the same key returns exactly the stored
value, in whichever backend the instance resolved to. -/
theorem C1_roundtrip_amended (st : SMState) (k v : String) (hk : k ≠ "") (hv : v ≠ "")
    (hmeta : k ≠ "__metadata__") (hwf : smWF st) :
    ∃ st', smStoreSecret st k v = (.ok (), st') ∧ smGetSecret st' k = .ok (some v) := by
  obtain ⟨hwfm, hwff⟩ := hwf
  by_cases hkr : st.useKeyring = true
  · -- keyring mode
    have hlk : lookupA (upsertA st.keyring k v) "__metadata__"
        = lookupA st.keyring "__metadata__" :=
      lookupA_upsertA_ne st.keyring k v "__metadata__" (Ne.symm hmeta)
    have hrep : ∃ l, metadataRep { st with keyring := upsertA st.keyring k v } l := by
      cases hs : lookupA st.keyring "__metadata__" with
      | none => exact ⟨[], Or.inl ⟨hlk.trans hs, rfl⟩⟩
      | some s =>
        replace hwfm : s = "" ∨ ∃ l : List String, s = jsonEncodeList l ∧
            (∀ x ∈ l, '"' ∉ x.toList) ∧ (∀ x ∈ l, lookupA st.keyring x ≠ none) := by
          rw [hs] at hwfm
          exact hwfm
        rcases hwfm with h | ⟨l, hl, hq, _⟩
        · exact ⟨[], Or.inr (Or.inl ⟨by rw [hlk, hs, h], rfl⟩)⟩
        · exact ⟨l, Or.inr (Or.inr ⟨by rw [hlk, hs, hl], hq⟩)⟩
    obtain ⟨l, hrepl⟩ := hrep
    have hupd := smUpdateKeyringMetadata_spec
      { st with keyring := upsertA st.keyring k v } k true l hkr hrepl
    refine ⟨{ st with keyring := (upsertA (upsertA st.keyring k v) "__metadata__" (metadataAfter l k true)) }, ?_, ?_⟩
    · unfold smStoreSecret
      rw [if_neg (not_or.mpr ⟨hk, hv⟩), hkr]
      simp only [if_true]
      rw [hkr] at hupd
      rw [hupd]
    · unfold smGetSecret
      rw [if_pos hkr]
      rw [lookupA_upsertA_ne _ _ _ k hmeta, lookupA_upsertA_self]
  · -- fallback mode
    replace hkr : st.useKeyring = false := by
      cases h : st.useKeyring
      · rfl
      · exact absurd h hkr
    have hread : ∃ data, smReadFallbackData st = .ok data := by
      unfold smReadFallbackData
      cases hfile : st.fallbackFile with
      | none => exact ⟨[], rfl⟩
      | some ct =>
        replace hwff : ct.key = st.fallbackKey := by
          rw [hfile] at hwff
          exact hwff
        exact ⟨ct.payload, by simp [fernetDecrypt, hwff]⟩
    obtain ⟨data, hdata⟩ := hread
    refine ⟨smWriteFallbackData st (upsertA data k v), ?_, ?_⟩
    · unfold smStoreSecret
      rw [if_neg (not_or.mpr ⟨hk, hv⟩), hkr]
      simp only [Bool.false_eq_true, if_false]
      rw [hdata]
    · unfold smGetSecret smReadFallbackData smWriteFallbackData
      rw [hkr]
      simp [fernetDecrypt, fernetEncrypt, lookupA_upsertA_self]

/-- Witness for C1's amended round trip on a fresh fallback instance. -/
theorem C1_roundtrip_amended_witness :
    ∃ st', smStoreSecret smFallbackFresh "openai_api_key" "sk-test-1234567890"
        = (.ok (), st') ∧
      smGetSecret st' "openai_api_key" = .ok (some "sk-test-1234567890") :=
  C1_roundtrip_amended smFallbackFresh "openai_api_key" "sk-test-1234567890"
    (by decide) (by decide) (by decide) ⟨trivial, rfl⟩

/-! ## C4: delete semantics -/

/-- Keyring-mode state reachable from a fresh instance by
`store_secret("a", "v")`: the backend holds the secret and the metadata
index `["a"]`. -/
def smKeyringWithA : SMState := (smStoreSecret smKeyringFresh "a" "v").2

/-- C4 counterexample: on the reachable keyring-mode state holding secret
`"a"`, `delete_secret("__metadata__")` returns `True` (the reserved
metadata entry exists in the backend), but the bookkeeping immediately
rewrites the entry, so `get_secret("__metadata__")` afterwards returns
`"[]"`, not `None` — the claimed universal post-condition fails at the
reserved key. -/
theorem C4_counterexample :
    (smDeleteSecret smKeyringWithA "__metadata__").1 = .ok true ∧
    smGetSecret (smDeleteSecret smKeyringWithA "__metadata__").2 "__metadata__"
      = .ok (some "[]") ∧
    (Except.ok (some "[]") : Except PyFault (Option String)) ≠ .ok none :=
  ⟨rfl, rfl, by simp⟩

/-- C4 amended: for every key other than the reserved `"__metadata__"`
index entry, on a well-formed store, `delete_secret` returns `True` iff
the key was present (in keystore mode the backend's
`PasswordDeleteError` is caught and mapped to the `False` result rather
than propagated), and afterwards `get_secret` returns `None` and the key
is absent from `list_secrets()`. -/
theorem C4_delete_amended (st : SMState) (k : String)
    (hmeta : k ≠ "__metadata__") (hwf : smWF st) :
    ∃ b st', smDeleteSecret st k = (.ok b, st') ∧
      (b = true ↔ ∃ v, smGetSecret st k = .ok (some v)) ∧
      smGetSecret st' k = .ok none ∧
      ∃ l', smListSecrets st' = .ok l' ∧ k ∉ l' := by
  obtain ⟨hwfm, hwff⟩ := hwf
  by_cases hkr : st.useKeyring = true
  · -- keyring mode
    have hrep : ∃ l, metadataRep st l ∧ (∀ x ∈ l, '"' ∉ x.toList)
        ∧ (∀ x ∈ l, lookupA st.keyring x ≠ none) := by
      cases hs : lookupA st.keyring "__metadata__" with
      | none => exact ⟨[], Or.inl ⟨hs, rfl⟩, by simp, by simp⟩
      | some s =>
        replace hwfm : s = "" ∨ ∃ l : List String, s = jsonEncodeList l ∧
            (∀ x ∈ l, '"' ∉ x.toList) ∧ (∀ x ∈ l, lookupA st.keyring x ≠ none) := by
          rw [hs] at hwfm
          exact hwfm
        rcases hwfm with rfl | ⟨l, rfl, hq, hpres⟩
        · exact ⟨[], Or.inr (Or.inl ⟨hs, rfl⟩), by simp, by simp⟩
        · exact ⟨l, Or.inr (Or.inr ⟨hs, hq⟩), hq, hpres⟩
    obtain ⟨l, hrepl, hq, hpres⟩ := hrep
    cases hlk : lookupA st.keyring k with
    | none =>
      refine ⟨false, st, ?_, ?_, ?_, ?_⟩
      · unfold smDeleteSecret
        rw [hkr]
        simp only [if_true]
        rw [hlk]
      · unfold smGetSecret
        rw [if_pos hkr, hlk]
        simp
      · unfold smGetSecret
        rw [if_pos hkr, hlk]
      · unfold smListSecrets
        rw [if_pos hkr]
        rcases hrepl with ⟨hs, rfl⟩ | ⟨hs, rfl⟩ | ⟨hs, _⟩
        · rw [hs]
          exact ⟨[], rfl, by simp⟩
        · rw [hs]
          exact ⟨[], rfl, by simp⟩
        · rw [hs]
          refine ⟨l, ?_, ?_⟩
          · show (if jsonEncodeList l = "" then (Except.ok [] : Except PyFault (List String))
                else match jsonDecodeList (jsonEncodeList l) with
                  | some l' => Except.ok l'
                  | none => Except.error PyFault.jsonDecodeError) = Except.ok l
            rw [if_neg (jsonEncodeList_ne_empty l), jsonDecodeList_encode l hq]
          · intro hmem
            exact (hpres k hmem) hlk
    | some v₀ =>
      have hrep₁ : metadataRep { st with keyring := removeA st.keyring k } l := by
        have hlkm : lookupA (removeA st.keyring k) "__metadata__"
            = lookupA st.keyring "__metadata__" :=
          lookupA_removeA_ne st.keyring k "__metadata__" (Ne.symm hmeta)
        rcases hrepl with ⟨hs, rfl⟩ | ⟨hs, rfl⟩ | ⟨hs, hq'⟩
        · exact Or.inl ⟨hlkm.trans hs, rfl⟩
        · exact Or.inr (Or.inl ⟨hlkm.trans hs, rfl⟩)
        · exact Or.inr (Or.inr ⟨hlkm.trans hs, hq'⟩)
      have hupd := smUpdateKeyringMetadata_spec
        { st with keyring := removeA st.keyring k } k false l hkr hrep₁
      refine ⟨true, { st with keyring := (upsertA (removeA st.keyring k) "__metadata__" (metadataAfter l k false)) }, ?_, ?_, ?_, ?_⟩
      · unfold smDeleteSecret
        rw [hkr]
        simp only [if_true]
        rw [hlk]
        rw [hkr] at hupd
        rw [hupd]
      · unfold smGetSecret
        rw [if_pos hkr, hlk]
        simp
      · have h₁ : lookupA (upsertA (removeA st.keyring k) "__metadata__"
            (metadataAfter l k false)) k = lookupA (removeA st.keyring k) k :=
          lookupA_upsertA_ne _ _ _ k hmeta
        unfold smGetSecret
        rw [if_pos (show SMState.useKeyring { st with keyring := (upsertA (removeA st.keyring k) "__metadata__" (metadataAfter l k false)) } = true from hkr)]
        rw [h₁, lookupA_removeA_self]
      · have hmv : lookupA (upsertA (removeA st.keyring k) "__metadata__"
            (metadataAfter l k false)) "__metadata__" = some (metadataAfter l k false) :=
          lookupA_upsertA_self _ _ _
        have hqf : ∀ x ∈ sortStr (dedupStr (l.filter (fun y => y ≠ k))), '"' ∉ x.toList := by
          intro x hx
          have hx₁ := (mem_sortStr x _).mp hx
          have hx₂ := (mem_dedupStr x _).mp hx₁
          exact hq x (List.mem_of_mem_filter hx₂)
        unfold smListSecrets
        rw [if_pos (show SMState.useKeyring { st with keyring := (upsertA (removeA st.keyring k) "__metadata__" (metadataAfter l k false)) } = true from hkr)]
        rw [hmv]
        refine ⟨sortStr (dedupStr (l.filter (fun y => y ≠ k))), ?_, ?_⟩
        · show (if metadataAfter l k false = ""
              then (Except.ok [] : Except PyFault (List String))
              else match jsonDecodeList (metadataAfter l k false) with
                | some l' => Except.ok l'
                | none => Except.error PyFault.jsonDecodeError)
            = Except.ok (sortStr (dedupStr (l.filter (fun y => y ≠ k))))
          unfold metadataAfter
          simp only [Bool.false_eq_true, if_false]
          rw [if_neg (jsonEncodeList_ne_empty _), jsonDecodeList_encode _ hqf]
        · intro hmem
          have h₁ := (mem_sortStr _ _).mp hmem
          have h₂ := (mem_dedupStr _ _).mp h₁
          have h₃ := List.mem_filter.mp h₂
          simp at h₃
  · -- fallback mode
    replace hkr : st.useKeyring = false := by
      cases h : st.useKeyring
      · rfl
      · exact absurd h hkr
    have hread : ∃ data, smReadFallbackData st = .ok data := by
      unfold smReadFallbackData
      cases hfile : st.fallbackFile with
      | none => exact ⟨[], rfl⟩
      | some ct =>
        replace hwff : ct.key = st.fallbackKey := by
          rw [hfile] at hwff
          exact hwff
        exact ⟨ct.payload, by simp [fernetDecrypt, hwff]⟩
    obtain ⟨data, hdata⟩ := hread
    cases hlkd : lookupA data k with
    | none =>
      refine ⟨false, st, ?_, ?_, ?_, ?_⟩
      · unfold smDeleteSecret
        rw [hkr]
        simp only [Bool.false_eq_true, if_false]
        simp only [hdata, hlkd]
      · unfold smGetSecret
        rw [hkr]
        simp only [Bool.false_eq_true, if_false]
        simp only [hdata, hlkd]
        simp
      · unfold smGetSecret
        rw [hkr]
        simp only [Bool.false_eq_true, if_false]
        simp only [hdata, hlkd]
      · unfold smListSecrets
        rw [hkr]
        simp only [Bool.false_eq_true, if_false]
        rw [hdata]
        exact ⟨data.map Prod.fst, rfl, (lookupA_eq_none_iff data k).mp hlkd⟩
    | some v₀ =>
      refine ⟨true, smWriteFallbackData st (removeA data k), ?_, ?_, ?_, ?_⟩
      · unfold smDeleteSecret
        rw [hkr]
        simp only [Bool.false_eq_true, if_false]
        simp only [hdata, hlkd]
      · unfold smGetSecret
        rw [hkr]
        simp only [Bool.false_eq_true, if_false]
        simp only [hdata, hlkd]
        simp
      · unfold smGetSecret smWriteFallbackData smReadFallbackData
        rw [hkr]
        simp [fernetDecrypt, fernetEncrypt, lookupA_removeA_self]
      · unfold smListSecrets smWriteFallbackData smReadFallbackData
        rw [hkr]
        simp only [Bool.false_eq_true, if_false, fernetDecrypt, fernetEncrypt]
        exact ⟨(removeA data k).map Prod.fst, by simp [fernetDecrypt], not_mem_keys_removeA data k⟩

/-- Fallback-mode state holding the secret `"a"`. -/
def smFallbackWithA : SMState := (smStoreSecret smFallbackFresh "a" "v").2

/-- Witness for C4's amended delete semantics at the present key `"a"`. -/
theorem C4_delete_amended_witness :
    ∃ b st', smDeleteSecret smFallbackWithA "a" = (.ok b, st') ∧
      (b = true ↔ ∃ v, smGetSecret smFallbackWithA "a" = .ok (some v)) ∧
      smGetSecret st' "a" = .ok none ∧
      ∃ l', smListSecrets st' = .ok l' ∧ "a" ∉ l' :=
  C4_delete_amended smFallbackWithA "a" (by decide) ⟨trivial, rfl⟩

/-! ## C8: masking of findings -/

/-- C8 amended: every finding's context is a prefix of the (rstripped)
line extending at most 8 characters past the match start, followed by
the fixed `***REDACTED***` placeholder — so at most 8 characters of the
matched region are revealed.  (Complete secrets matched *earlier* in the
same line may still appear inside that prefix, which is what the
counterexample exhibits.) -/
theorem C8_mask_truncation (n : Nat) (line : List Char) (f : Finding)
    (hf : f ∈ scanLine n line) :
    ∃ entry ∈ auditPatterns, ∃ s, searchPos entry.2.1 line 0 = some s ∧
      f.patternType = entry.1 ∧ f.severity = entry.2.2 ∧
      ∃ pre, pre.length ≤ s + 8 ∧ pre <+: rstripChars line ∧
        f.context = pre ++ "***REDACTED***".toList := by
  simp only [scanLine, List.mem_filterMap] at hf
  obtain ⟨entry, hmem, heq⟩ := hf
  cases hs : searchPos entry.2.1 line 0 with
  | none =>
    rw [hs] at heq
    simp at heq
  | some s =>
    rw [hs] at heq
    replace heq : (⟨n, entry.1, entry.2.2, maskSecret (rstripChars line) s⟩ : Finding) = f := by
      simpa using heq
    subst heq
    refine ⟨entry, hmem, s, hs, rfl, rfl, ?_⟩
    unfold maskSecret
    by_cases hlt : s + 8 < (rstripChars line).length
    · rw [if_pos hlt]
      refine ⟨(rstripChars line).take (s + 8), ?_, List.take_prefix _ _, rfl⟩
      rw [List.length_take]
      exact min_le_left _ _
    · rw [if_neg hlt]
      refine ⟨(rstripChars line).take s, ?_, List.take_prefix _ _, rfl⟩
      have h₁ : ((rstripChars line).take s).length ≤ s := by
        rw [List.length_take]
        exact min_le_left _ _
      omega

/-- Witness for C8's amended masking property at the single finding of
the concrete openai line. -/
theorem C8_mask_truncation_witness :
    ∃ entry ∈ auditPatterns, ∃ s, searchPos entry.2.1 c6Line 0 = some s ∧
      (⟨1, "openai_key", "HIGH", maskSecret (rstripChars c6Line) 18⟩ : Finding).patternType
        = entry.1 ∧
      (⟨1, "openai_key", "HIGH", maskSecret (rstripChars c6Line) 18⟩ : Finding).severity
        = entry.2.2 ∧
      ∃ pre, pre.length ≤ s + 8 ∧ pre <+: rstripChars c6Line ∧
        (⟨1, "openai_key", "HIGH", maskSecret (rstripChars c6Line) 18⟩ : Finding).context
          = pre ++ "***REDACTED***".toList :=
  C8_mask_truncation 1 c6Line ⟨1, "openai_key", "HIGH", maskSecret (rstripChars c6Line) 18⟩
    (by decide)

/-- line holding two secrets: a Bearer credential and then an OpenAI
key. -/
def c8Line : List Char :=
  ("Bearer abcdefghij0123456789 sk-" ++ String.mk (List.replicate 32 'a')).toList

/-- C8 counterexample: on a line holding a Bearer credential followed by
an OpenAI key, the bearer pattern's leftmost-longest match is the full
27-character secret `Bearer abcdefghij0123456789`, and the `openai_key`
finding on the same line (match start 28) carries a masked context that
contains that complete secret as a substring — refuting the claim that a
finding's masked context never contains the complete text of any secret
matched by any pattern on that line. -/
theorem C8_counterexample :
    searchPos reBearer c8Line 0 = some 0 ∧
    longestMatchLen reBearer c8Line = some 27 ∧
    rstripChars c8Line = c8Line ∧
    (scanFileLines [c8Line]).filter (fun f => decide (f.patternType = "openai_key"))
      = [⟨1, "openai_key", "HIGH", maskSecret c8Line 28⟩] ∧
    isInfixB (c8Line.take 27) (maskSecret c8Line 28) = true :=
  ⟨rfl, rfl, rfl, rfl, rfl⟩
